import Mathlib

/-!
# Verification of the invoice OCR extraction pipeline

A shallow embedding of the glue code in `src/main.py` of the
`invoice-data-extraction-using-ocr` repository, together with proofs of the
testable properties of its specification.

Modelling conventions:
* Python strings are embedded as `List Char`; Python `str.strip()`,
  `str.split(sep)` and the `in` substring test are given executable
  char-list implementations matching CPython semantics for a non-empty
  separator.
* Python dictionaries with string keys are embedded as association lists
  `List (List Char × List Char)` in insertion order, which also models the
  key order `pandas.DataFrame` sees.
* The float expressions `int(height * 0.70)`, `int(width * 0.50)` and
  `int(height * 0.10)` in `crop_upper_right` are modelled by exact rational
  truncation `height * 70 / 100` etc. on `Nat` (the operands are
  non-negative integers, so truncation coincides with floor division).
* The external OCR call, image decoding and the filesystem are oracles:
  a per-file outcome is either an exception, a no-data result, or a list of
  recognized text lines, exactly the three ways `process_image` can go.
-/

set_option autoImplicit false

namespace InvoiceOCR

universe u

/-! ## Python string primitives on `List Char` -/

/-- Model of Python `str.strip()`: remove whitespace from both ends of the string. -/
def strip (s : List Char) : List Char :=
  ((s.dropWhile Char.isWhitespace).reverse.dropWhile Char.isWhitespace).reverse

/-- Model of Python `sep in s` for a non-empty separator `sh :: st`: does the
separator occur as a contiguous substring? Scans every suffix for a prefix
match. -/
def containsGo (sh : Char) (st : List Char) : List Char → Bool
  | [] => false
  | c :: rest => (sh :: st).isPrefixOf (c :: rest) || containsGo sh st rest

/-- Model of Python `sep in s`; the separator used in the program is non-empty. -/
def containsSeq (sep s : List Char) : Bool :=
  match sep with
  | [] => true
  | sh :: st => containsGo sh st s

/-- Everything strictly after the first occurrence of the separator
`sh :: st` (the whole remainder of the string, not stopping at a later
occurrence); `[]` when the separator does not occur. -/
def afterFirstGo (sh : Char) (st : List Char) : List Char → List Char
  | [] => []
  | c :: rest =>
    if (sh :: st).isPrefixOf (c :: rest) then rest.drop st.length
    else afterFirstGo sh st rest

/-- Everything strictly before the first occurrence of the separator
`sh :: st`; the whole string when the separator does not occur. -/
def beforeFirstGo (sh : Char) (st : List Char) : List Char → List Char
  | [] => []
  | c :: rest =>
    if (sh :: st).isPrefixOf (c :: rest) then []
    else c :: beforeFirstGo sh st rest

/-- The text after the first occurrence of `sep` in `s` (to the end of the
string); `s` itself for the degenerate empty separator. -/
def afterFirstSeq (sep s : List Char) : List Char :=
  match sep with
  | [] => s
  | sh :: st => afterFirstGo sh st s

/-- The text before the first occurrence of `sep` in `s` (all of `s` when
`sep` does not occur); `s` itself for the degenerate empty separator. -/
def beforeFirstSeq (sep s : List Char) : List Char :=
  match sep with
  | [] => s
  | sh :: st => beforeFirstGo sh st s

/-- Worker for Python `s.split(sep)` with non-empty separator `sh :: st`.
`fuel` is a structural-recursion bound; it is called with `fuel ≥ s.length`
so the `0, c :: rest` fallback is never reached. `acc` holds the current
chunk reversed. -/
def splitGo (sh : Char) (st : List Char) : Nat → List Char → List Char → List (List Char)
  | _, [], acc => [acc.reverse]
  | 0, s, acc => [acc.reverse ++ s]
  | fuel + 1, c :: rest, acc =>
    if (sh :: st).isPrefixOf (c :: rest) then
      acc.reverse :: splitGo sh st fuel (rest.drop st.length) []
    else
      splitGo sh st fuel rest (c :: acc)

/-- Model of Python `s.split(sep)` for a non-empty separator: the list of chunks
between consecutive non-overlapping occurrences of `sep`, scanned left to
right (CPython semantics). -/
def splitOnSeq (sep s : List Char) : List (List Char) :=
  match sep with
  | [] => [s]
  | sh :: st => splitGo sh st s.length s []

/-! ## Dictionaries as insertion-ordered association lists -/

/-- Model of Python `d[k]` lookup on an insertion-ordered association list:
`some v` for the first entry with key `k`, `none` when the key is absent
(a Python `KeyError`). -/
def dictGet (k : List Char) : List (List Char × List Char) → Option (List Char)
  | [] => none
  | kv :: rest => if kv.1 = k then some kv.2 else dictGet k rest

/-- Boolean membership of a key in a list of keys (Python `k in keys`). -/
def memKey (k : List Char) : List (List Char) → Bool
  | [] => false
  | k2 :: rest => k2 = k || memKey k rest

/-! ## Keys and constants of the program -/

/-- The dictionary key `client_name`. -/
def keyClientName : List Char :=
  ['c', 'l', 'i', 'e', 'n', 't', '_', 'n', 'a', 'm', 'e']

/-- The dictionary key `client_address`. -/
def keyClientAddress : List Char :=
  ['c', 'l', 'i', 'e', 'n', 't', '_', 'a', 'd', 'd', 'r', 'e', 's', 's']

/-- The dictionary key `tax_id`. -/
def keyTaxId : List Char :=
  ['t', 'a', 'x', '_', 'i', 'd']

/-- The dictionary key `source_file`. -/
def keySourceFile : List Char :=
  ['s', 'o', 'u', 'r', 'c', 'e', '_', 'f', 'i', 'l', 'e']

/-- The literal separator `"Tax ID:"` searched for in the last OCR line. -/
def taxSep : List Char :=
  ['T', 'a', 'x', ' ', 'I', 'D', ':']

/-! ## `parse_ocr_results` (src/main.py, lines 71-108) -/

/-- Translation of `parse_ocr_results(text_lines)`: heuristic field extraction from the
recognized text lines.  Returns the empty dictionary for an empty input;
otherwise a dictionary with the keys `client_name`, `client_address` and
`tax_id` in that insertion order.  `text_lines[2:-1]` is
`(text_lines.drop 2).dropLast`, `"".join` is `List.flatten`,
`text_lines[-1]` is `getLastD`, and `last_line.split("Tax ID:")[1].strip()`
is `strip ((splitOnSeq taxSep last_line).getD 1 [])`. -/
def parse_ocr_results (text_lines : List (List Char)) : List (List Char × List Char) :=
  if text_lines.isEmpty then []
  else
    let client_name := if 1 < text_lines.length then text_lines.getD 1 [] else []
    let client_address :=
      if 2 < text_lines.length then ((text_lines.drop 2).dropLast).flatten else []
    let last_line := text_lines.getLastD []
    let tax_id :=
      if containsSeq taxSep last_line then
        strip ((splitOnSeq taxSep last_line).getD 1 [])
      else if 6 < last_line.length then last_line.drop 6
      else []
    [(keyClientName, client_name), (keyClientAddress, client_address), (keyTaxId, tax_id)]

/-! ## `crop_upper_right` (src/main.py, lines 31-68) -/

/-- The crop rectangle `(x1, y1, x2, y2)` computed by `crop_upper_right`
from the image height and width. -/
structure Rect where
  x1 : Nat
  y1 : Nat
  x2 : Nat
  y2 : Nat
deriving DecidableEq, Repr

/-- The coordinate arithmetic of `crop_upper_right`: the percentages
`0.70`, `0.50`, `0.10` applied via `int(...)` (modelled as exact truncated
division), then the `max`/`min` clamping of the source. All quantities are
non-negative in the source, so `Nat` with truncated subtraction is
faithful. -/
def crop_rect (height width : Nat) : Rect :=
  let crop_height := height * 70 / 100
  let crop_width := width * 50 / 100
  let y1 := height * 10 / 100
  let x1 := width - crop_width
  let x2 := width
  let y2 := height - crop_height
  { x1 := max 0 x1, y1 := max 0 y1, x2 := min width x2, y2 := min height y2 }

/-- Translation of `crop_upper_right(img)`: the image is a list of rows (numpy axis 0),
`img.shape[:2]` is `(img.length, row length)`, and `img[y1:y2, x1:x2]` is
row slicing then column slicing, with Python slice clamping given by
`drop`/`take`. -/
def crop_upper_right {α : Type u} (img : List (List α)) : List (List α) :=
  let r := crop_rect img.length ((img.headD []).length)
  ((img.drop r.y1).take (r.y2 - r.y1)).map fun row => (row.drop r.x1).take (r.x2 - r.x1)

/-! ## `read_images` (src/main.py, lines 13-28) -/

/-- The filesystem oracle: whether a path exists, and the directory entries
`Path.iterdir` yields for it. -/
structure FileSystem where
  pathExists : List Char → Bool
  iterdir : List Char → List (List Char)

/-- The exception `read_images` can raise. -/
inductive FsError where
  | fileNotFoundError
deriving DecidableEq, Repr

/-- Translation of `read_images(path)`: raises `FileNotFoundError` when the path does not
exist, otherwise yields the directory entries.  The Python generator is
modelled by the outcome of iterating it: either the raised exception or
the full sequence of yielded paths. -/
def read_images (fs : FileSystem) (path : List Char) : Except FsError (List (List Char)) :=
  if fs.pathExists path then .ok (fs.iterdir path) else .error .fileNotFoundError

/-! ## `process_image` (src/main.py, lines 111-126) and the main loop -/

/-- What happens when one file is processed, abstracting the external
calls: `exn` — some call raises an exception; `noData` — `cv2.imread`
returns `None`, or the OCR result is empty or lacks `rec_texts` (the
function returns `{}`); `texts lines` — the OCR result carries the
recognized lines `result[0]["rec_texts"]`. -/
inductive OcrOutcome where
  | exn
  | noData
  | texts (lines : List (List Char))

/-- Translation of `process_image(image_path, ocr)`: propagates an exception, returns the
empty dictionary when there is no usable image or OCR result, and
otherwise parses the recognized text lines. -/
def process_image (o : OcrOutcome) : Except Unit (List (List Char × List Char)) :=
  match o with
  | .exn => .error ()
  | .noData => .ok []
  | .texts lines => .ok (parse_ocr_results lines)

/-- The accumulation loop of `main` (src/main.py, lines 149-157): each
file is a `(path.name, outcome)` pair; an exception is caught, logged and
skipped; a falsy (empty) dictionary is skipped; otherwise
`data["source_file"] = image_path.name` appends the new key at the end
(Python dict insertion order) and the row is appended. -/
def extractRows : List (List Char × OcrOutcome) → List (List (List Char × List Char))
  | [] => []
  | (n, o) :: rest =>
    match process_image o with
    | .error _ => extractRows rest
    | .ok data =>
      if data.isEmpty then extractRows rest
      else (data ++ [(keySourceFile, n)]) :: extractRows rest

/-- A file is successfully processed when `process_image` neither raises
nor returns an empty dictionary — exactly the files that contribute a row. -/
def successful (f : List Char × OcrOutcome) : Bool :=
  match process_image f.2 with
  | .error _ => false
  | .ok data => !data.isEmpty

/-- The dictionary a successfully processed file yields. -/
def dataOf (o : OcrOutcome) : List (List Char × List Char) :=
  match process_image o with
  | .error _ => []
  | .ok data => data

/-- The row a successfully processed file contributes: its parsed
dictionary with `source_file` appended. -/
def mkRow (f : List Char × OcrOutcome) : List (List Char × List Char) :=
  dataOf f.2 ++ [(keySourceFile, f.1)]

/-! ## Spreadsheet assembly (src/main.py, lines 159-176) -/

/-- Add the keys of one row to the running column list in first-seen
order, skipping keys already present — how `pandas.DataFrame` builds its
columns from a list of dictionaries. -/
def addRowKeys (acc : List (List Char)) (row : List (List Char × List Char)) : List (List Char) :=
  row.foldl (fun a kv => if memKey kv.1 a then a else a ++ [kv.1]) acc

/-- The columns of `pd.DataFrame(extracted_data)`: the union of row keys
in first-seen order. -/
def dfColumns (rows : List (List (List Char × List Char))) : List (List Char) :=
  rows.foldl addRowKeys []

/-- The desired column order `cols` of the source (line 169):
`["source_file", "client_name", "client_address", "tax_id"]`. -/
def cols : List (List Char) :=
  [keySourceFile, keyClientName, keyClientAddress, keyTaxId]

/-- Translation of `existing_cols` (line 171): the desired columns filtered to those the
DataFrame actually has. -/
def existing_cols (rows : List (List (List Char × List Char))) : List (List Char) :=
  cols.filter fun c => memKey c (dfColumns rows)

/-- Effect of `dataframe[existing_cols]` applied to one row: the row's values
re-ordered under the selected columns. -/
def reindexRow (cs : List (List Char)) (row : List (List Char × List Char)) :
    List (List Char × List Char) :=
  cs.map fun c => (c, (dictGet c row).getD [])

/-- Translation of `main` (src/main.py, lines 129-178) after the OCR engine is
initialized, as a function of the per-file outcomes: accumulate rows,
return `none` (no output file written) when no data was extracted, and
otherwise write the spreadsheet, given by its header `existing_cols` and
its reindexed rows.  (The early return when the directory holds no files
is the `extracted_data = []` case.) -/
def main (files : List (List Char × OcrOutcome)) :
    Option (List (List Char) × List (List (List Char × List Char))) :=
  let extracted_data := extractRows files
  if extracted_data.isEmpty then none
  else
    let ex := existing_cols extracted_data
    some (ex, extracted_data.map (reindexRow ex))

/-! ## Characterization of `splitGo` -/

/-- Lemma: `splitGo` does not depend on the fuel once the fuel covers the string
length. -/
theorem splitGo_fuel (sh : Char) (st : List Char) :
    ∀ (fuel1 fuel2 : Nat) (s acc : List Char), s.length ≤ fuel1 → s.length ≤ fuel2 →
      splitGo sh st fuel1 s acc = splitGo sh st fuel2 s acc := by
  intro fuel1
  induction fuel1 with
  | zero =>
    intro fuel2 s acc h1 _
    have hs : s = [] := List.eq_nil_of_length_eq_zero (Nat.le_zero.mp h1)
    subst hs
    cases fuel2 <;> rfl
  | succ f1 ih =>
    intro fuel2 s acc h1 h2
    cases s with
    | nil => cases fuel2 <;> rfl
    | cons c rest =>
      cases fuel2 with
      | zero => exact absurd h2 (by simp)
      | succ f2 =>
        simp only [splitGo]
        by_cases hp : (sh :: st).isPrefixOf (c :: rest) = true
        · simp only [hp, if_true]
          have hd : (rest.drop st.length).length ≤ rest.length := by
            simp [List.length_drop]
          exact congrArg _ (ih f2 _ [] (le_trans hd ((by simpa using h1)))
            (le_trans hd ((by simpa using h2))))
        · simp only [hp, if_false]
          exact ih f2 rest (c :: acc) ((by simpa using h1))
            ((by simpa using h2))

/-- Structure of a `splitGo` run: the first chunk is the accumulator plus
the text before the first separator occurrence, and when the separator
occurs the remaining chunks are the split of the text after it. -/
theorem splitGo_eq (sh : Char) (st : List Char) :
    ∀ (fuel : Nat) (s acc : List Char), s.length ≤ fuel →
      splitGo sh st fuel s acc =
        (acc.reverse ++ beforeFirstGo sh st s) ::
          (if containsGo sh st s then
            splitGo sh st (afterFirstGo sh st s).length (afterFirstGo sh st s) []
          else []) := by
  intro fuel
  induction fuel with
  | zero =>
    intro s acc h
    have hs : s = [] := List.eq_nil_of_length_eq_zero (Nat.le_zero.mp h)
    subst hs
    simp [splitGo, beforeFirstGo, containsGo]
  | succ f ih =>
    intro s acc h
    cases s with
    | nil => simp [splitGo, beforeFirstGo, containsGo]
    | cons c rest =>
      simp only [splitGo]
      by_cases hp : (sh :: st).isPrefixOf (c :: rest) = true
      · simp only [hp, if_true, beforeFirstGo, containsGo, afterFirstGo, Bool.true_or,
          List.append_nil]
        refine congrArg _ ?_
        have hd : (rest.drop st.length).length ≤ rest.length := by
          simp [List.length_drop]
        exact splitGo_fuel sh st f _ _ []
          (le_trans hd ((by simpa using h))) le_rfl
      · simp only [hp, if_false]
        rw [ih rest (c :: acc) ((by simpa using h))]
        simp [beforeFirstGo, containsGo, afterFirstGo, hp]

/-- When the separator occurs, element `1` of the Python split is the text
between the first occurrence and the following occurrence (to the end of
the string if there is no further occurrence). -/
theorem splitOnSeq_getD_one (sh : Char) (st s : List Char)
    (h : containsGo sh st s = true) :
    (splitOnSeq (sh :: st) s).getD 1 [] =
      beforeFirstGo sh st (afterFirstGo sh st s) := by
  show (splitGo sh st s.length s []).getD 1 [] = _
  rw [splitGo_eq sh st s.length s [] le_rfl, if_pos h,
    splitGo_eq sh st _ (afterFirstGo sh st s) [] le_rfl]
  simp

/-! ## Access lemmas for the parsed dictionary -/

/-- Looking up `tax_id` in the three-entry dictionary built by
`parse_ocr_results`. -/
theorem dictGet_taxId_triple (v1 v2 v3 : List Char) :
    dictGet keyTaxId
      [(keyClientName, v1), (keyClientAddress, v2), (keyTaxId, v3)] = some v3 := by
  have h1 : keyClientName ≠ keyTaxId := by decide
  have h2 : keyClientAddress ≠ keyTaxId := by decide
  simp [dictGet, h1, h2]

/-- Looking up `client_name` in the three-entry dictionary built by
`parse_ocr_results`. -/
theorem dictGet_clientName_triple (v1 v2 v3 : List Char) :
    dictGet keyClientName
      [(keyClientName, v1), (keyClientAddress, v2), (keyTaxId, v3)] = some v1 := by
  simp [dictGet]

/-- Looking up `client_address` in the three-entry dictionary built by
`parse_ocr_results`. -/
theorem dictGet_clientAddress_triple (v1 v2 v3 : List Char) :
    dictGet keyClientAddress
      [(keyClientName, v1), (keyClientAddress, v2), (keyTaxId, v3)] = some v2 := by
  have h1 : keyClientName ≠ keyClientAddress := by decide
  simp [dictGet, h1]

/-- The tax id extracted for a non-empty line list, in the three branches
of the source. -/
theorem dictGet_taxId_parse (a : List Char) (as : List (List Char)) :
    dictGet keyTaxId (parse_ocr_results (a :: as)) =
      some (if containsSeq taxSep ((a :: as).getLastD []) then
              strip ((splitOnSeq taxSep ((a :: as).getLastD [])).getD 1 [])
            else if 6 < ((a :: as).getLastD []).length then
              ((a :: as).getLastD []).drop 6
            else []) := by
  simp only [parse_ocr_results, List.isEmpty_cons, Bool.false_eq_true, if_false]
  exact dictGet_taxId_triple _ _ _

/-! ## Claim C1: the tax-id extraction -/

/-- A last line in which `"Tax ID:"` occurs twice: `"Tax ID:ATax ID:B"`. -/
def cexLine : List Char :=
  ['T', 'a', 'x', ' ', 'I', 'D', ':', 'A', 'T', 'a', 'x', ' ', 'I', 'D', ':', 'B']

/-- Claim C1 (counterexample): the claim says the extracted `tax_id` is the
text after the *first* `"Tax ID:"` occurrence (stripped), but
`split("Tax ID:")[1]` stops at the *next* occurrence: on the single line
`"Tax ID:ATax ID:B"` the code extracts `"A"`, not `"ATax ID:B"`. -/
theorem tax_id_after_first_cex :
    dictGet keyTaxId (parse_ocr_results [cexLine]) ≠
      some (strip (afterFirstSeq taxSep cexLine)) := by decide

/-- Claim C1 (amended): for every non-empty line list whose last line
contains `"Tax ID:"`, the extracted `tax_id` is the text strictly between
the first `"Tax ID:"` occurrence and the next one (to the end of the line
when there is no further occurrence), with surrounding whitespace
stripped; when the last line does not contain `"Tax ID:"`, the `tax_id` is
the last line with its first six characters removed. -/
theorem tax_id_parse (tl : List (List Char)) (h : tl ≠ []) :
    (containsSeq taxSep (tl.getLastD []) = true →
      dictGet keyTaxId (parse_ocr_results tl) =
        some (strip (beforeFirstSeq taxSep (afterFirstSeq taxSep (tl.getLastD []))))) ∧
    (containsSeq taxSep (tl.getLastD []) = false →
      dictGet keyTaxId (parse_ocr_results tl) = some ((tl.getLastD []).drop 6)) := by
  cases tl with
  | nil => exact absurd rfl h
  | cons a as =>
    rw [dictGet_taxId_parse]
    constructor
    · intro hc
      rw [if_pos hc]
      have hc' : containsGo 'T' ['a', 'x', ' ', 'I', 'D', ':'] ((a :: as).getLastD []) = true := by
        simpa [containsSeq, taxSep] using hc
      simp only [taxSep, beforeFirstSeq, afterFirstSeq]
      rw [splitOnSeq_getD_one 'T' ['a', 'x', ' ', 'I', 'D', ':'] _ hc']
    · intro hc
      rw [if_neg (by simp only [hc]; exact fun hx => nomatch hx)]
      by_cases hl : 6 < ((a :: as).getLastD []).length
      · rw [if_pos hl]
      · rw [if_neg hl]
        rw [List.drop_eq_nil_of_le (by omega)]

/-- A concrete last line `"Tax ID: 99"` exercising the amended C1. -/
def taxLineW : List Char :=
  ['T', 'a', 'x', ' ', 'I', 'D', ':', ' ', '9', '9']

/-- Witness for the amended C1 at the single line `"Tax ID: 99"`. -/
theorem tax_id_parse_witness :
    dictGet keyTaxId (parse_ocr_results [taxLineW]) =
      some (strip (beforeFirstSeq taxSep (afterFirstSeq taxSep taxLineW))) :=
  (tax_id_parse [taxLineW] (by decide)).1 (by decide)

/-! ## Claim C3: the crop rectangle stays within the image bounds -/

/-- Claim C3: for every positive height and width, the crop rectangle of
`crop_upper_right` satisfies `0 ≤ x1 ≤ x2 ≤ w` and `0 ≤ y1 ≤ y2 ≤ h`. -/
theorem crop_rect_within_bounds (h w : Nat) (hh : 0 < h) (hw : 0 < w) :
    0 ≤ (crop_rect h w).x1 ∧ (crop_rect h w).x1 ≤ (crop_rect h w).x2 ∧
      (crop_rect h w).x2 ≤ w ∧
      0 ≤ (crop_rect h w).y1 ∧ (crop_rect h w).y1 ≤ (crop_rect h w).y2 ∧
      (crop_rect h w).y2 ≤ h := by
  refine ⟨Nat.zero_le _, ?_, ?_, Nat.zero_le _, ?_, ?_⟩ <;> simp [crop_rect] <;> omega

/-- Witness for C3 at a 10 by 10 image. -/
theorem crop_rect_within_bounds_witness :
    0 ≤ (crop_rect 10 10).x1 ∧ (crop_rect 10 10).x1 ≤ (crop_rect 10 10).x2 ∧
      (crop_rect 10 10).x2 ≤ 10 ∧
      0 ≤ (crop_rect 10 10).y1 ∧ (crop_rect 10 10).y1 ≤ (crop_rect 10 10).y2 ∧
      (crop_rect 10 10).y2 ≤ 10 :=
  crop_rect_within_bounds 10 10 (by decide) (by decide)

/-! ## Claim C10: the exact cropped region -/

/-- Claim C10: for an `h × w` image, `crop_upper_right` returns the subarray
of rows `int(0.10*h) .. h - int(0.70*h)` and columns
`w - int(0.50*w) .. w`; in particular the cropped height is
`h - int(0.70*h) - int(0.10*h)` (about 20% of `h`), not 70% of `h`. -/
theorem crop_upper_right_slice {α : Type u} (img : List (List α)) (h w : Nat)
    (hh : img.length = h) (hw : ∀ r ∈ img, r.length = w) :
    crop_upper_right img =
      ((img.drop (h * 10 / 100)).take ((h - h * 70 / 100) - h * 10 / 100)).map
        (fun row => (row.drop (w - w * 50 / 100)).take (w - (w - w * 50 / 100))) ∧
    (crop_upper_right img).length = (h - h * 70 / 100) - h * 10 / 100 := by
  subst hh
  have key : crop_upper_right img =
      ((img.drop (img.length * 10 / 100)).take
          ((img.length - img.length * 70 / 100) - img.length * 10 / 100)).map
        (fun row => (row.drop (w - w * 50 / 100)).take (w - (w - w * 50 / 100))) := by
    cases img with
    | nil => simp [crop_upper_right, crop_rect]
    | cons r rs =>
      have hr : r.length = w := hw r (List.mem_cons_self r rs)
      simp only [crop_upper_right, crop_rect, List.headD_cons, hr, Nat.zero_max,
        min_self, min_eq_right (Nat.sub_le (r :: rs).length ((r :: rs).length * 70 / 100))]
  refine ⟨key, ?_⟩
  rw [key]
  simp only [List.length_map, List.length_take, List.length_drop]
  omega

/-- Witness for C10 at a concrete 3 by 3 image: the crop keeps row
`int(0.10*3) = 0` up to `3 - int(0.70*3) = 1` and columns from
`3 - int(0.50*3) = 2`. -/
theorem crop_upper_right_slice_witness :
    crop_upper_right [[1, 2, 3], [4, 5, 6], [7, 8, 9]] =
      (([[1, 2, 3], [4, 5, 6], [7, 8, 9]].drop (3 * 10 / 100)).take
          ((3 - 3 * 70 / 100) - 3 * 10 / 100)).map
        (fun row => (row.drop (3 - 3 * 50 / 100)).take (3 - (3 - 3 * 50 / 100))) ∧
    (crop_upper_right [[1, 2, 3], [4, 5, 6], [7, 8, 9]]).length =
      (3 - 3 * 70 / 100) - 3 * 10 / 100 :=
  crop_upper_right_slice (α := Nat) [[1, 2, 3], [4, 5, 6], [7, 8, 9]] 3 3
    (by decide) (by decide)

/-! ## Claim C2: short inputs give empty fields, not an error -/

/-- Claim C2 (counterexample): the claim includes the empty line list, but
there `parse_ocr_results` returns the empty dictionary — the `client_name`
field is absent altogether, not an empty string. -/
theorem parse_empty_cex :
    parse_ocr_results [] = [] ∧
      dictGet keyClientName (parse_ocr_results []) ≠ some [] := by
  exact ⟨rfl, by decide⟩

/-- Claim C2 (amended): for every *non-empty* list of text lines with fewer
lines than expected, `parse_ocr_results` returns (without raising) a
dictionary whose missing fields are empty strings: with at most one line
the `client_name` field is the empty string, and with at most two lines
the `client_address` field is the empty string; for the empty list it
returns the empty dictionary, likewise without raising. -/
theorem parse_short_fields (tl : List (List Char)) (h : tl ≠ []) :
    (tl.length ≤ 1 → dictGet keyClientName (parse_ocr_results tl) = some []) ∧
    (tl.length ≤ 2 → dictGet keyClientAddress (parse_ocr_results tl) = some []) := by
  cases tl with
  | nil => exact absurd rfl h
  | cons a as =>
    simp only [parse_ocr_results, List.isEmpty_cons, Bool.false_eq_true, if_false]
    constructor
    · intro hl
      rw [if_neg (show ¬ 1 < (a :: as).length by omega)]
      exact dictGet_clientName_triple _ _ _
    · intro hl
      rw [if_neg (show ¬ 2 < (a :: as).length by omega)]
      exact dictGet_clientAddress_triple _ _ _

/-- Witness for the amended C2 at the single line `"abc"`. -/
theorem parse_short_fields_witness :
    dictGet keyClientName (parse_ocr_results [['a', 'b', 'c']]) = some [] :=
  (parse_short_fields [['a', 'b', 'c']] (by decide)).1 (by decide)

/-! ## Structure of the accumulation loop -/

/-- The rows accumulated by the main loop are exactly the rows of the
successfully processed files, in order. -/
theorem extractRows_eq_filter (files : List (List Char × OcrOutcome)) :
    extractRows files = (files.filter successful).map mkRow := by
  induction files with
  | nil => rfl
  | cons f rest ih =>
    obtain ⟨n, o⟩ := f
    cases ho : process_image o with
    | error e =>
      have hs : successful (n, o) = false := by simp [successful, ho]
      simp [extractRows, ho, hs, List.filter_cons, ih]
    | ok data =>
      by_cases hd : data.isEmpty = true
      · have hs : successful (n, o) = false := by simp [successful, ho, hd]
        simp [extractRows, ho, hd, hs, List.filter_cons, ih]
      · have hs : successful (n, o) = true := by simp [successful, ho]; simpa using hd
        simp [extractRows, ho, hd, hs, List.filter_cons, ih, mkRow, dataOf]

/-- The loop distributes over list concatenation. -/
theorem extractRows_append (xs ys : List (List Char × OcrOutcome)) :
    extractRows (xs ++ ys) = extractRows xs ++ extractRows ys := by
  simp [extractRows_eq_filter, List.filter_append]

/-! ## Claim C4: per-file exceptions are caught and skipped -/

/-- Claim C4: a file whose processing raises an exception contributes no row
and leaves the rest of the batch — and hence the final output — exactly as
if the file were absent; processing continues with the remaining files. -/
theorem exception_skipped (pre post : List (List Char × OcrOutcome)) (n : List Char) :
    extractRows (pre ++ (n, OcrOutcome.exn) :: post) = extractRows (pre ++ post) ∧
    main (pre ++ (n, OcrOutcome.exn) :: post) = main (pre ++ post) := by
  have hx : extractRows (pre ++ (n, OcrOutcome.exn) :: post) = extractRows (pre ++ post) := by
    rw [show (n, OcrOutcome.exn) :: post = [(n, OcrOutcome.exn)] ++ post from rfl,
      extractRows_append, extractRows_append, extractRows_append]
    simp [extractRows, process_image]
  exact ⟨hx, by simp only [main, hx]⟩

/-! ## Claim C5: no extracted data, no output file -/

/-- Claim C5: when the accumulated row list is empty after the whole batch,
the run returns without writing an output spreadsheet. -/
theorem no_rows_no_output (files : List (List Char × OcrOutcome))
    (h : extractRows files = []) : main files = none := by
  simp [main, h]

/-- Witness for C5: a batch whose single file raises. -/
theorem no_rows_no_output_witness : main [(['a'], OcrOutcome.exn)] = none :=
  no_rows_no_output [(['a'], OcrOutcome.exn)] (by decide)

/-! ## Claim C6: one spreadsheet row per successfully processed file -/

/-- Claim C6: whenever an output spreadsheet is written, its row count
equals the number of successfully processed files (those skipped by an
exception or an empty extraction contribute nothing), and its rows are
exactly the rows of those files, in order. -/
theorem rows_correspond (files : List (List Char × OcrOutcome))
    (cs : List (List Char)) (rws : List (List (List Char × List Char)))
    (h : main files = some (cs, rws)) :
    rws.length = (files.filter successful).length ∧
    rws = ((files.filter successful).map mkRow).map (reindexRow cs) := by
  simp only [main] at h
  by_cases he : (extractRows files).isEmpty
  · rw [if_pos he] at h
    exact absurd h (by simp)
  · rw [if_neg he] at h
    injection h with h
    injection h with h1 h2
    subst h1
    constructor
    · rw [← h2, extractRows_eq_filter]
      simp
    · rw [← h2, extractRows_eq_filter]

/-- Witness for C6: a one-file batch that produces one row. -/
theorem rows_correspond_witness :
    ([[(keySourceFile, ['f']), (keyClientName, ['n']), (keyClientAddress, []),
        (keyTaxId, [])]] :
      List (List (List Char × List Char))).length =
        ([(['f'], OcrOutcome.texts [['a'], ['n']])].filter successful).length ∧
    [[(keySourceFile, ['f']), (keyClientName, ['n']), (keyClientAddress, []),
        (keyTaxId, [])]] =
      (([(['f'], OcrOutcome.texts [['a'], ['n']])].filter successful).map mkRow).map
        (reindexRow cols) :=
  rows_correspond [(['f'], OcrOutcome.texts [['a'], ['n']])] cols
    [[(keySourceFile, ['f']), (keyClientName, ['n']), (keyClientAddress, []),
        (keyTaxId, [])]]
    (by decide)

/-! ## Claim C8: the output columns -/

/-- The keys of `parse_ocr_results` on a non-empty input, in insertion
order. -/
theorem keys_of_parse_cons (a : List Char) (as : List (List Char)) :
    (parse_ocr_results (a :: as)).map Prod.fst =
      [keyClientName, keyClientAddress, keyTaxId] := by
  simp [parse_ocr_results]

/-- Every accumulated row carries exactly the four keys, in insertion
order. -/
theorem keys_of_row (files : List (List Char × OcrOutcome))
    (row : List (List Char × List Char)) (h : row ∈ extractRows files) :
    row.map Prod.fst = [keyClientName, keyClientAddress, keyTaxId, keySourceFile] := by
  rw [extractRows_eq_filter] at h
  obtain ⟨f, hf, rfl⟩ := List.mem_map.mp h
  have hs : successful f = true := List.of_mem_filter hf
  obtain ⟨n, o⟩ := f
  cases o with
  | exn => simp [successful, process_image] at hs
  | noData => simp [successful, process_image] at hs
  | texts lines =>
    cases lines with
    | nil => simp [successful, process_image, parse_ocr_results] at hs
    | cons a as =>
      simp [mkRow, dataOf, process_image, keys_of_parse_cons]

/-- Membership of a key distributes over appended key lists. -/
theorem memKey_append (k : List Char) (l1 l2 : List (List Char)) :
    memKey k (l1 ++ l2) = (memKey k l1 || memKey k l2) := by
  induction l1 with
  | nil => simp [memKey]
  | cons x xs ih => simp [memKey, ih, Bool.or_assoc]

/-- Lemma: `addRowKeys` never loses a key already collected. -/
theorem memKey_addRowKeys_mono (k : List Char) (row : List (List Char × List Char)) :
    ∀ acc, memKey k acc = true → memKey k (addRowKeys acc row) = true := by
  induction row with
  | nil => intro acc h; simpa [addRowKeys] using h
  | cons kv rest ih =>
    intro acc h
    simp only [addRowKeys, List.foldl_cons] at *
    by_cases hm : memKey kv.1 acc = true
    · rw [if_pos hm]; exact ih acc h
    · rw [if_neg hm]
      exact ih (acc ++ [kv.1]) (by rw [memKey_append, h, Bool.true_or])

/-- Lemma: `addRowKeys` collects every key of the row. -/
theorem memKey_addRowKeys_of_mem (k : List Char) (row : List (List Char × List Char)) :
    ∀ acc, memKey k (row.map Prod.fst) = true → memKey k (addRowKeys acc row) = true := by
  induction row with
  | nil => intro acc h; simp [memKey] at h
  | cons kv rest ih =>
    intro acc h
    simp only [addRowKeys, List.foldl_cons] at *
    rw [List.map_cons, memKey] at h
    by_cases hk : kv.1 = k
    · subst hk
      by_cases hm : memKey kv.1 acc = true
      · rw [if_pos hm]
        exact memKey_addRowKeys_mono kv.1 rest acc hm
      · rw [if_neg hm]
        exact memKey_addRowKeys_mono kv.1 rest (acc ++ [kv.1])
          (by rw [memKey_append]; simp [memKey])
    · have h' : memKey k (rest.map Prod.fst) = true := by
        simpa [hk] using h
      by_cases hm : memKey kv.1 acc = true
      · rw [if_pos hm]; exact ih acc h'
      · rw [if_neg hm]; exact ih (acc ++ [kv.1]) h'

/-- A key collected in the accumulator survives the whole column fold. -/
theorem memKey_foldl_mono (k : List Char)
    (rows : List (List (List Char × List Char))) :
    ∀ acc, memKey k acc = true → memKey k (rows.foldl addRowKeys acc) = true := by
  induction rows with
  | nil => intro acc h; simpa using h
  | cons r rs ih =>
    intro acc h
    rw [List.foldl_cons]
    exact ih (addRowKeys acc r) (memKey_addRowKeys_mono k r acc h)

/-- Claim C8: whenever an output spreadsheet is written, its columns are
exactly `source_file, client_name, client_address, tax_id`, in that
order. -/
theorem output_columns (files : List (List Char × OcrOutcome))
    (cs : List (List Char)) (rws : List (List (List Char × List Char)))
    (h : main files = some (cs, rws)) : cs = cols := by
  simp only [main] at h
  by_cases he : (extractRows files).isEmpty
  · rw [if_pos he] at h
    exact absurd h (by simp)
  · rw [if_neg he] at h
    injection h with h
    injection h with h1 h2
    subst h1
    obtain ⟨r, rs, hr⟩ : ∃ r rs, extractRows files = r :: rs := by
      cases hx : extractRows files with
      | nil => rw [hx] at he; exact absurd rfl he
      | cons r rs => exact ⟨r, rs, rfl⟩
    have hkeys := keys_of_row files r (by rw [hr]; exact List.mem_cons_self r rs)
    have hmem : ∀ k, memKey k (r.map Prod.fst) = true →
        memKey k (dfColumns (extractRows files)) = true := by
      intro k hk
      rw [hr]
      show memKey k ((r :: rs).foldl addRowKeys []) = true
      rw [List.foldl_cons]
      exact memKey_foldl_mono k rs (addRowKeys [] r)
        (memKey_addRowKeys_of_mem k r [] hk)
    have hS := hmem keySourceFile (by rw [hkeys]; decide)
    have hN := hmem keyClientName (by rw [hkeys]; decide)
    have hA := hmem keyClientAddress (by rw [hkeys]; decide)
    have hT := hmem keyTaxId (by rw [hkeys]; decide)
    simp [existing_cols, cols, List.filter, hS, hN, hA, hT]

/-- Witness for C8: the one-row batch yields exactly the four columns. -/
theorem output_columns_witness :
    ([keySourceFile, keyClientName, keyClientAddress, keyTaxId] :
      List (List Char)) = cols :=
  output_columns [(['f'], OcrOutcome.texts [['a'], ['n']])]
    [keySourceFile, keyClientName, keyClientAddress, keyTaxId]
    [[(keySourceFile, ['f']), (keyClientName, ['n']), (keyClientAddress, []),
        (keyTaxId, [])]]
    (by decide)

/-! ## Claim C7: missing input directory -/

/-- Claim C7: for every path that does not exist, iterating `read_images`
raises `FileNotFoundError` and yields no file. -/
theorem missing_path_raises (fs : FileSystem) (p : List Char)
    (h : fs.pathExists p = false) :
    read_images fs p = .error FsError.fileNotFoundError := by
  simp [read_images, h]

/-- A filesystem with no paths at all. -/
def noFs : FileSystem :=
  { pathExists := fun _ => false, iterdir := fun _ => [] }

/-- Witness for C7 on the empty filesystem. -/
theorem missing_path_raises_witness :
    read_images noFs ['x'] = .error FsError.fileNotFoundError :=
  missing_path_raises noFs ['x'] rfl

/-! ## Claim C9: the shape of the parsed dictionary -/

/-- Claim C9: for every non-empty line list, `parse_ocr_results` returns a
dictionary with exactly the keys `client_name`, `client_address`,
`tax_id`; for the empty list it returns the empty dictionary, which the
main loop treats as no extractable data and skips. -/
theorem parse_keys_shape :
    (∀ tl : List (List Char), tl ≠ [] →
      (parse_ocr_results tl).map Prod.fst =
        [keyClientName, keyClientAddress, keyTaxId]) ∧
    parse_ocr_results [] = [] ∧
    ∀ (pre post : List (List Char × OcrOutcome)) (n : List Char),
      extractRows (pre ++ (n, OcrOutcome.texts []) :: post) =
        extractRows (pre ++ post) := by
  refine ⟨?_, rfl, ?_⟩
  · intro tl h
    cases tl with
    | nil => exact absurd rfl h
    | cons a as => exact keys_of_parse_cons a as
  · intro pre post n
    rw [show (n, OcrOutcome.texts []) :: post = [(n, OcrOutcome.texts [])] ++ post from rfl,
      extractRows_append, extractRows_append, extractRows_append]
    simp [extractRows, process_image, parse_ocr_results]

/-- Witness for C9 at a one-line input and a one-file batch. -/
theorem parse_keys_shape_witness :
    (parse_ocr_results [['a']]).map Prod.fst =
      [keyClientName, keyClientAddress, keyTaxId] ∧
    extractRows ([] ++ (['f'], OcrOutcome.texts []) :: []) = extractRows ([] ++ []) :=
  ⟨parse_keys_shape.1 [['a']] (by decide), parse_keys_shape.2.2 [] [] ['f']⟩

end InvoiceOCR
